import Mathlib

/-!
Verification of the EVAE model in DrugEmbedding/evae.py against its design
specification.

Tensors are modelled as functions over Fin-indexed types with real entries;
token ids are natural numbers.  Python-level failures (UnboundLocalError at
decoder line 110, ZeroDivisionError at line 242) are modelled with Option:
a none result means the call raises instead of returning a value.
-/

/-- Python true division a / b as used on scalars in evae.py: raises
ZeroDivisionError (none) when the denominator is 0. -/
noncomputable def pydiv (a b : ℝ) : Option ℝ :=
  if b = 0 then none else some (a / b)

/-- Embedding of EVAE.one_hot_embedding (evae.py lines 63-69): an all-zero
array in which a single 1 is written at index char for every position whose
token id char is nonzero.  The source compares char.item() with the literal 0,
not with the configured pad_idx. -/
def one_hot_embedding (vocabSize B L : ℕ) (input : Fin B → Fin L → ℕ) :
    Fin B → Fin L → Fin vocabSize → ℝ :=
  fun b t v => if input b t ≠ 0 ∧ (v : ℕ) = input b t then 1 else 0

/-- Embedding of the word-dropout corruption in EVAE.decoder (lines 101-108).
prob holds the uniform draws of torch.rand; a position where
(input - sos_idx) * (input - pad_idx) == 0 has its draw overwritten with 1,
and afterwards every position whose draw is < rate is replaced by unk_idx. -/
noncomputable def word_dropout (rate : ℝ) (sos_idx pad_idx unk_idx : ℕ) (B L : ℕ)
    (input : Fin B → Fin L → ℕ) (prob : Fin B → Fin L → ℝ) :
    Fin B → Fin L → ℕ :=
  fun b t =>
    if (if ((input b t : ℤ) - (sos_idx : ℤ)) * ((input b t : ℤ) - (pad_idx : ℤ)) = 0
        then (1 : ℝ) else prob b t) < rate
    then unk_idx else input b t

/-- Embedding of lines 101-110 of EVAE.decoder: the one-hot representation
handed to pack_padded_sequence.  The local decoder_one_hot_rep is assigned only
inside the word_dropout_rate > 0 branch, so when the rate is not positive the
use at line 110 raises UnboundLocalError, modelled as none. -/
noncomputable def decoder_input_rep (rate : ℝ) (sos_idx pad_idx unk_idx vocabSize B L : ℕ)
    (input : Fin B → Fin L → ℕ) (prob : Fin B → Fin L → ℝ) :
    Option (Fin B → Fin L → Fin vocabSize → ℝ) :=
  if 0 < rate then
    some (one_hot_embedding vocabSize B L
      (word_dropout rate sos_idx pad_idx unk_idx B L input prob))
  else none

/-- Log-density of MultivariateNormal(mu, diag(exp(logv))) at z: the quantity
torch.distributions.MultivariateNormal(...).log_prob computes for the diagonal
covariance matrices cov = exp(logv) * eye built in evae.py. -/
noncomputable def mvnLogProb (n : ℕ) (mu logv z : Fin n → ℝ) : ℝ :=
  -(1 / 2) * ((n : ℝ) * Real.log (2 * Real.pi)
    + ∑ i, logv i + ∑ i, (z i - mu i) ^ 2 / Real.exp (logv i))

/-- Embedding of EVAE.kl_loss (lines 198-211) with prior == Standard: the sum
over the batch of log q(z_b given x_b) - log p(z_b), both log-densities
evaluated at the sampled z_b; the prior is MultivariateNormal(0, eye), that is
mu = 0 and logv = 0. -/
noncomputable def kl_loss (B n : ℕ) (mean logv z : Fin B → Fin n → ℝ) : ℝ :=
  ∑ b, (mvnLogProb n (mean b) (logv b) (z b)
    - mvnLogProb n (fun _ => 0) (fun _ => 0) (z b))

/-- Claim C4 as stated, for a given configured pad id: every position holding
a token different from padIdx has exactly one 1, at index equal to the token,
and every position holding padIdx is all-zero. -/
def oneHotPadClaim (vocabSize B L : ℕ) (input : Fin B → Fin L → ℕ) (padIdx : ℕ) : Prop :=
  ∀ b t,
    (input b t ≠ padIdx → ∀ v : Fin vocabSize,
      ((v : ℕ) = input b t → one_hot_embedding vocabSize B L input b t v = 1) ∧
      ((v : ℕ) ≠ input b t → one_hot_embedding vocabSize B L input b t v = 0)) ∧
    (input b t = padIdx → ∀ v : Fin vocabSize,
      one_hot_embedding vocabSize B L input b t v = 0)

/-- C1: with word-dropout rate 0 the decoder does not complete normally, let
alone reproduce the uncorrupted teacher-forcing path: decoder_one_hot_rep is
only assigned in the rate > 0 branch and its use at line 110 raises.
Evaluated at the failing input: a one-element batch holding token 1. -/
theorem decoder_rate_zero_raises :
    decoder_input_rep 0 1 0 2 5 1 1 (fun _ _ => 1) (fun _ _ => 1 / 2) = none := by
  simp [decoder_input_rep]

/-- C8: for any dropout rate at most 1 (in particular any rate in (0, 1]), a
position whose token equals the start-of-sequence id or the pad id is never
replaced with unk_idx: its draw is forced to 1 and 1 < rate fails. -/
theorem word_dropout_keeps_sos_pad (rate : ℝ) (sos_idx pad_idx unk_idx B L : ℕ)
    (input : Fin B → Fin L → ℕ) (prob : Fin B → Fin L → ℝ) (b : Fin B) (t : Fin L)
    (hr0 : 0 < rate) (hr1 : rate ≤ 1)
    (h : input b t = sos_idx ∨ input b t = pad_idx) :
    word_dropout rate sos_idx pad_idx unk_idx B L input prob b t = input b t := by
  have hcond : ((input b t : ℤ) - (sos_idx : ℤ)) * ((input b t : ℤ) - (pad_idx : ℤ)) = 0 := by
    rcases h with h | h <;> rw [h] <;> simp
  simp only [word_dropout]
  rw [if_pos hcond, if_neg (not_lt.mpr hr1)]

/-- Witness for C8: rate 1/2, sos id 1, pad id 0, a batch holding the token 1
(the start-of-sequence id) with a draw of 0 that would otherwise corrupt it. -/
theorem word_dropout_keeps_sos_pad_witness :
    word_dropout (1 / 2) 1 0 2 1 1 (fun _ _ => 1) (fun _ _ => 0) 0 0 = 1 :=
  word_dropout_keeps_sos_pad (1 / 2) 1 0 2 1 1 (fun _ _ => 1) (fun _ _ => 0) 0 0
    (by norm_num) (by norm_num) (Or.inl rfl)

/-- C4 counterexample: with configured pad id 1 and a batch holding the token
0, the claim demands a 1 at index 0 (token 0 is not the pad id), but the code
zeroes every position whose token is the literal 0. -/
theorem one_hot_pad_claim_false : ¬ oneHotPadClaim 2 1 1 (fun _ _ => 0) 1 := by
  intro h
  have h1 := ((h 0 0).1 (by decide) 0).1 (by decide)
  norm_num [one_hot_embedding] at h1

/-- C4 amended: the code hardcodes the pad id 0 (char.item() != 0) rather than
the configured pad_idx, so rows are governed by the literal token 0: a nonzero
token t gets exactly one 1, at index t when t is in vocabulary, and a position
holding 0 is all-zero.  The claim as stated holds exactly when pad_idx = 0. -/
theorem one_hot_embedding_zero_pad (vocabSize B L : ℕ) (input : Fin B → Fin L → ℕ)
    (b : Fin B) (t : Fin L) :
    (input b t ≠ 0 → ∀ v : Fin vocabSize,
      ((v : ℕ) = input b t → one_hot_embedding vocabSize B L input b t v = 1) ∧
      ((v : ℕ) ≠ input b t → one_hot_embedding vocabSize B L input b t v = 0)) ∧
    (input b t = 0 → ∀ v : Fin vocabSize,
      one_hot_embedding vocabSize B L input b t v = 0) := by
  constructor
  · intro hnz v
    constructor
    · intro hv
      simp only [one_hot_embedding]
      rw [if_pos ⟨hnz, hv⟩]
    · intro hv
      simp only [one_hot_embedding]
      rw [if_neg (fun hc => hv hc.2)]
  · intro hz v
    simp only [one_hot_embedding]
    rw [if_neg (fun hc => hc.1 hz)]

/-- Witness for the amended C4: vocabulary size 3, a batch holding token 2:
index 2 of its one-hot row is 1 and index 0 is 0. -/
theorem one_hot_embedding_zero_pad_witness :
    one_hot_embedding 3 1 1 (fun _ _ => 2) 0 0 2 = 1 ∧
    one_hot_embedding 3 1 1 (fun _ _ => 2) 0 0 0 = 0 :=
  ⟨((one_hot_embedding_zero_pad 3 1 1 (fun _ _ => 2) 0 0).1 (by decide) 2).1 (by decide),
   ((one_hot_embedding_zero_pad 3 1 1 (fun _ _ => 2) 0 0).1 (by decide) 0).2 (by decide)⟩

/-- C3 amended: kl_loss is the single-sample estimate of the KL at the sampled
z.  It equals (1/2) * sum over b and i of (z^2 - logv - (z - mean)^2 * exp(-logv)),
which is not the analytic KL formula and need not be non-negative. -/
theorem kl_loss_sample_formula (B n : ℕ) (mean logv z : Fin B → Fin n → ℝ) :
    kl_loss B n mean logv z =
      (1 / 2) * ∑ b, ∑ i,
        ((z b i) ^ 2 - logv b i - (z b i - mean b i) ^ 2 / Real.exp (logv b i)) := by
  unfold kl_loss mvnLogProb
  rw [Finset.mul_sum]
  apply Finset.sum_congr rfl
  intro b _
  simp only [sub_zero, Real.exp_zero, div_one, Finset.sum_const_zero]
  rw [Finset.sum_sub_distrib, Finset.sum_sub_distrib]
  ring

/-- C3 counterexample: with one example, one latent dimension, mean 0,
log-variance 1 and sampled z = 0, kl_loss returns -1/2 < 0, so the claimed
non-negativity (and the agreement with the analytic KL, (e-2)/2 here) fails
at the sampled z. -/
theorem kl_loss_negative_at_sample :
    kl_loss 1 1 (fun _ _ => 0) (fun _ _ => 1) (fun _ _ => 0) < 0 := by
  simp only [kl_loss, mvnLogProb, Fin.sum_univ_one]
  norm_num

/-- Embedding of torch.sort(sorted_idx) at decoder line 118 (and at lines 154,
297, 301): an ascending sort of the index tensor sorted_idx, itself the
permutation produced by the earlier descending length sort; the returned
indices are the positions that sort sorted_idx. -/
def reversed_idx (B : ℕ) (sortedIdx : Equiv.Perm (Fin B)) : Fin B → Fin B :=
  fun i => Tuple.sort (fun j => sortedIdx j) i

/-- Embedding of padded_outputs[reversed_idx] (line 119) and of
mean[reversed_idx] and friends (line 159): rows re-indexed by the result of
sorting sorted_idx. -/
def restore_order (B : ℕ) {α : Type} (sortedIdx : Equiv.Perm (Fin B)) (rows : Fin B → α) :
    Fin B → α :=
  fun i => rows (reversed_idx B sortedIdx i)

/-- Sorting the values of a permutation of Fin B yields its inverse: the index
tensor of torch.sort(sorted_idx) is exactly the inverse permutation. -/
theorem sort_perm_eq_inv (B : ℕ) (σ : Equiv.Perm (Fin B)) :
    Tuple.sort (fun j => σ j) = σ⁻¹ := by
  have h : σ⁻¹ = Tuple.sort (fun j => σ j) := by
    rw [Tuple.eq_sort_iff]
    constructor
    · have hid : (fun j => σ j) ∘ ⇑σ⁻¹ = id := by
        funext i
        simp
      rw [hid]
      exact monotone_id
    · intro i j hij hf
      simp only [Equiv.Perm.apply_inv_self] at hf
      exact (hij.ne hf).elim
  exact h.symm

/-- C5: the un-sort after the recurrent pass exactly inverts the length sort.
For any sort permutation sortedIdx, any input rows x and any per-row
computation g applied to the sorted rows, indexing with reversed_idx restores
the caller's original row order, so row i of the output corresponds to row i
of the input.  This is the pattern of the decoder (lines 116-119) and of
get_intermediates (lines 151-159), whose pre-unsort rows are produced rowwise
from the sorted input rows. -/
theorem restore_order_inverts_sort (B : ℕ) {α β : Type} (sortedIdx : Equiv.Perm (Fin B))
    (x : Fin B → α) (g : α → β) :
    restore_order B sortedIdx (fun j => g (x (sortedIdx j))) = fun i => g (x i) := by
  funext i
  simp [restore_order, reversed_idx, sort_perm_eq_inv]

/-- Embedding of step 6 of EVAE.ranking_loss (lines 311-317) on the distance
matrix: dist a j is the Euclidean distance between selected anchor a's encoded
mean and its j-th candidate's mean (index 0 is the positive, K negatives
follow); the returned loss is
(sum over anchors of dist[a,0] + logsumexp(-dist[a,:])) / number of anchors. -/
noncomputable def ranking_loss (A K : ℕ) (dist : Fin A → Fin (K + 1) → ℝ) : ℝ :=
  (∑ a, (dist a 0 + Real.log (∑ j, Real.exp (-dist a j)))) / (A : ℝ)

/-- Distance matrix of the closed-form check in C6: one selected anchor with
candidate distances 0, 5, 5, the positive at index 0. -/
noncomputable def distExample : Fin 1 → Fin 3 → ℝ :=
  fun _ j => if j = 0 then 0 else 5

/-- C6: the ranking loss is the average over selected anchors of
distance-to-positive plus log-sum-exp of the negated distances, equivalently
the negative log of softmax(-distance) at the positive index 0; and at one
anchor with distances 0, 5, 5 it equals log(1 + 2 exp(-5)). -/
theorem ranking_loss_formula (A K : ℕ) (dist : Fin A → Fin (K + 1) → ℝ) :
    ranking_loss A K dist =
      (∑ a, -Real.log (Real.exp (-dist a 0) / ∑ j, Real.exp (-dist a j))) / (A : ℝ) ∧
    ranking_loss 1 2 distExample = Real.log (1 + 2 * Real.exp (-5)) := by
  constructor
  · unfold ranking_loss
    congr 1
    apply Finset.sum_congr rfl
    intro a _
    have hS : (0 : ℝ) < ∑ j, Real.exp (-dist a j) :=
      Finset.sum_pos (fun j _ => Real.exp_pos _) Finset.univ_nonempty
    rw [Real.log_div (Real.exp_ne_zero _) (ne_of_gt hS), Real.log_exp]
    ring
  · unfold ranking_loss distExample
    rw [Fin.sum_univ_one, Fin.sum_univ_three]
    norm_num
    rw [if_neg (show ¬ (2 : Fin 3) = 0 by decide)]
    congr 1
    ring

/-- Mean of an (nx, ny) matrix of reals: torch .mean() over all entries. -/
noncomputable def matMean (nx ny : ℕ) (K : Fin nx → Fin ny → ℝ) : ℝ :=
  (∑ i, ∑ j, K i j) / ((nx : ℝ) * (ny : ℝ))

/-- Embedding of EVAE.compute_kernel (lines 326-335): entry (i, j) is
exp(-((mean over dims of (x_i - y_j)^2) / dim)): the squared difference is
averaged over the dim dimensions and the average divided by dim again. -/
noncomputable def compute_kernel (nx ny dim : ℕ) (x : Fin nx → Fin dim → ℝ)
    (y : Fin ny → Fin dim → ℝ) : Fin nx → Fin ny → ℝ :=
  fun i j => Real.exp (-(((∑ d, (x i d - y j d) ^ 2) / (dim : ℝ)) / (dim : ℝ)))

/-- Embedding of EVAE.compute_mmd (lines 337-342) for two equal-count sample
sets of the same dimensionality, as in mmd_loss. -/
noncomputable def compute_mmd (m dim : ℕ) (x y : Fin m → Fin dim → ℝ) : ℝ :=
  matMean m m (compute_kernel m m dim x x) + matMean m m (compute_kernel m m dim y y)
    - 2 * matMean m m (compute_kernel m m dim x y)

/-- Squared-exponential kernel as the specification words it: squared
distance over the bandwidth dim^2 inside a negated exponential. -/
noncomputable def kernel_spec (dim : ℕ) (a b : Fin dim → ℝ) : ℝ :=
  Real.exp (-((∑ d, (a d - b d) ^ 2) / ((dim : ℝ) ^ 2)))

/-- Biased MMD^2 estimator as the specification words it:
mean(K_tt) + mean(K_zz) - 2 mean(K_tz) over the kernel matrices. -/
noncomputable def mmd_spec (m dim : ℕ) (x y : Fin m → Fin dim → ℝ) : ℝ :=
  (∑ i, ∑ j, kernel_spec dim (x i) (x j)) / ((m : ℝ) * (m : ℝ))
    + (∑ i, ∑ j, kernel_spec dim (y i) (y j)) / ((m : ℝ) * (m : ℝ))
    - 2 * ((∑ i, ∑ j, kernel_spec dim (x i) (y j)) / ((m : ℝ) * (m : ℝ)))

/-- C7: compute_mmd returns mean(K_tt) + mean(K_zz) - 2 mean(K_tz) for the
squared-exponential kernel whose bandwidth is the latent dimensionality
squared: averaging the squared difference over dimensions and then dividing by
dim is division by dim^2. -/
theorem compute_mmd_matches_spec (m dim : ℕ) (x y : Fin m → Fin dim → ℝ) :
    compute_mmd m dim x y = mmd_spec m dim x y := by
  have hk : ∀ (nx ny : ℕ) (u : Fin nx → Fin dim → ℝ) (v : Fin ny → Fin dim → ℝ)
      (i : Fin nx) (j : Fin ny),
      compute_kernel nx ny dim u v i j = kernel_spec dim (u i) (v j) := by
    intro nx ny u v i j
    simp only [compute_kernel, kernel_spec, div_div, pow_two]
  simp only [compute_mmd, mmd_spec, matMean, hk]

/-- Log-sum-exp of a list of reals: torch.logsumexp along dimension 0 of the
concatenated tensor at line 244. -/
noncomputable def logsumexp (l : List ℝ) : ℝ :=
  Real.log (l.map Real.exp).sum

/-- Cross-example importance weight of line 242, computed at the Python level:
(num_samples - 1) / ((batch_size - 1) * num_samples); a zero denominator
raises ZeroDivisionError, modelled as none. -/
noncomputable def cross_weight (B S : ℕ) : Option ℝ :=
  pydiv ((S : ℝ) - 1) (((B : ℝ) - 1) * (S : ℝ))

/-- Terms concatenated at line 243 for example b: the in-example log-density
offset by -log(num_samples), followed by the cross-example log-densities over
mean[:b] ++ mean[b+1:] and logv[:b] ++ logv[b+1:] (the self index removed,
original order kept), each offset by log w. -/
noncomputable def mpd_terms (B n S : ℕ) (z mean logv : Fin B → Fin n → ℝ)
    (b : Fin B) (w : ℝ) : List ℝ :=
  (mvnLogProb n (mean b) (logv b) (z b) - Real.log (S : ℝ)) ::
    (((List.finRange B).filter (fun r => decide (r ≠ b))).map
      (fun r => mvnLogProb n (mean r) (logv r) (z b) + Real.log w))

/-- Embedding of EVAE.marginal_posterior_divergence (lines 214-256): for each
example b, logq_zb is the log-sum-exp of the concatenated terms and logp_zb
the log-density of z_b under MultivariateNormal(0, eye); the result sums
their differences over the batch.  The Option records that the Python-level
weight division raises on a zero denominator. -/
noncomputable def marginal_posterior_divergence (B n S : ℕ)
    (z mean logv : Fin B → Fin n → ℝ) : Option ℝ :=
  (cross_weight B S).map fun w =>
    ∑ b, (logsumexp (mpd_terms B n S z mean logv b w)
      - mvnLogProb n (fun _ => 0) (fun _ => 0) (z b))

/-- Standard-normal log-density on n dimensions, the specification's
log p(z_b). -/
noncomputable def stdNormalLogProb (n : ℕ) (z : Fin n → ℝ) : ℝ :=
  -(1 / 2) * ((n : ℝ) * Real.log (2 * Real.pi) + ∑ i, z i ^ 2)

/-- Marginal posterior divergence as the specification words it: per example b
the log-sum-exp combines the in-example log q(z_b given x_b) - log(num_samples)
with the B-1 cross-example log q(z_b given x_r) for r distinct from b, each
offset by log((num_samples - 1)/((batch_size - 1) num_samples)); the total is
the sum over b of log q(z_b) - log p(z_b). -/
noncomputable def mpd_spec (B n S : ℕ) (z mean logv : Fin B → Fin n → ℝ) : ℝ :=
  ∑ b, (Real.log (Real.exp (mvnLogProb n (mean b) (logv b) (z b) - Real.log (S : ℝ))
      + ∑ r ∈ Finset.univ.erase b, Real.exp (mvnLogProb n (mean r) (logv r) (z b)
        + Real.log (((S : ℝ) - 1) / (((B : ℝ) - 1) * (S : ℝ)))))
    - stdNormalLogProb n (z b))

/-- The prior used by the code, MultivariateNormal(0, eye), has exactly the
standard-normal log-density. -/
theorem mvnLogProb_std (n : ℕ) (z : Fin n → ℝ) :
    mvnLogProb n (fun _ => 0) (fun _ => 0) z = stdNormalLogProb n z := by
  unfold mvnLogProb stdNormalLogProb
  simp

/-- Summing a mapped filtered list is summing the guarded map. -/
theorem sum_map_filter_decide {α : Type} [DecidableEq α] (l : List α) (b : α) (f : α → ℝ) :
    ((l.filter (fun r => decide (r ≠ b))).map f).sum
      = (l.map (fun r => if r ≠ b then f r else 0)).sum := by
  induction l with
  | nil => rfl
  | cons a l ih =>
    rw [List.filter_cons]
    by_cases h : a = b
    · have hd : (decide (a ≠ b)) = false := by simp [h]
      rw [hd, if_neg Bool.false_ne_true, List.map_cons, List.sum_cons,
        if_neg (fun hne => hne h), zero_add, ih]
    · have hd : (decide (a ≠ b)) = true := by simp [h]
      rw [hd, if_pos rfl, List.map_cons, List.sum_cons, List.map_cons, List.sum_cons,
        if_pos h, ih]

/-- Exponentials summed over the self-excluding slice mean[:b] ++ mean[b+1:]
equal the sum over the batch indices with b erased. -/
theorem sum_exp_filter (B : ℕ) (b : Fin B) (g : Fin B → ℝ) :
    ((((List.finRange B).filter (fun r => decide (r ≠ b))).map g).map Real.exp).sum
      = ∑ r ∈ Finset.univ.erase b, Real.exp (g r) := by
  rw [List.map_map, sum_map_filter_decide]
  have h1 : (List.map (fun r => if r ≠ b then (Real.exp ∘ g) r else 0) (List.finRange B)).sum
      = ∑ r : Fin B, (if r ≠ b then Real.exp (g r) else 0) := by
    rw [Fin.sum_univ_def]
    simp only [Function.comp]
  rw [h1, ← Finset.sum_filter, Finset.filter_ne']

/-- C2: for batch size at least 2 and a positive sample count, the marginal
posterior divergence returns the sum over examples b of log q(z_b) - log p(z_b),
where log q(z_b) is the log-sum-exp of the in-example log-density offset by
-log(num_samples) together with the B-1 cross-example log-densities (the self
index b exactly excluded) each offset by
log((num_samples-1)/((B-1) num_samples)), and log p(z_b) is the
standard-normal log-density of z_b. -/
theorem marginal_posterior_divergence_spec (B n S : ℕ) (z mean logv : Fin B → Fin n → ℝ)
    (hB : 2 ≤ B) (hS : 1 ≤ S) :
    marginal_posterior_divergence B n S z mean logv = some (mpd_spec B n S z mean logv) := by
  have hB' : (2 : ℝ) ≤ (B : ℝ) := by exact_mod_cast hB
  have hS' : (1 : ℝ) ≤ (S : ℝ) := by exact_mod_cast hS
  have hden : (((B : ℝ) - 1) * (S : ℝ)) ≠ 0 :=
    mul_ne_zero (by linarith) (by linarith)
  unfold marginal_posterior_divergence cross_weight pydiv
  rw [if_neg hden]
  simp only [Option.map_some']
  congr 1
  unfold mpd_spec
  apply Finset.sum_congr rfl
  intro b _
  rw [mvnLogProb_std]
  congr 1
  unfold logsumexp mpd_terms
  rw [List.map_cons, List.sum_cons, sum_exp_filter]

/-- Witness for C2 at batch size 2, one latent dimension, 5 samples. -/
theorem marginal_posterior_divergence_spec_witness :
    marginal_posterior_divergence 2 1 5 (fun _ _ => 0) (fun _ _ => 0) (fun _ _ => 0)
      = some (mpd_spec 2 1 5 (fun _ _ => 0) (fun _ _ => 0) (fun _ _ => 0)) :=
  marginal_posterior_divergence_spec 2 1 5 (fun _ _ => 0) (fun _ _ => 0) (fun _ _ => 0)
    (by norm_num) (by norm_num)

/-- C9: at batch size 1 the cross-example importance weight of line 242 has
denominator (1 - 1) * num_samples = 0, so the division raises
ZeroDivisionError for every sample count and every batch content: the
estimator is degenerate at this boundary (it cannot agree with the
conditional KL there) and its error branch is reachable. -/
theorem marginal_posterior_divergence_batch_one (n S : ℕ)
    (z mean logv : Fin 1 → Fin n → ℝ) :
    cross_weight 1 S = none ∧ marginal_posterior_divergence 1 n S z mean logv = none := by
  have h : (((1 : ℕ) : ℝ) - 1) * (S : ℝ) = 0 := by norm_num
  refine ⟨?_, ?_⟩
  · unfold cross_weight pydiv
    rw [if_pos h]
  · unfold marginal_posterior_divergence cross_weight pydiv
    rw [if_pos h]
    rfl

/-- Embedding of the weight gating in EVAE.vae_loss (lines 181-196): each
regularizer is evaluated and divided by batch_size only when its weight is
strictly positive, and is the constant scalar 0 otherwise (the MMD term is not
divided by batch_size).  The estimator results are passed as Options, none
modelling an estimator call that raises, so that the short-circuit is
visible: a gated-off term never forces its estimator. -/
noncomputable def vae_loss_reg (beta alpha gamma : ℝ) (batch_size : ℕ)
    (klv mklv mmdv : Option ℝ) : Option ℝ × Option ℝ × Option ℝ :=
  ( if 0 < beta then klv.map (fun v => v / (batch_size : ℝ)) else some 0,
    if 0 < alpha then mklv.map (fun v => v / (batch_size : ℝ)) else some 0,
    if 0 < gamma then mmdv else some 0 )

/-- C10: whenever a loss weight is zero the corresponding term of vae_loss is
the exact constant 0 and its estimator is never evaluated: the term is 0 even
when the estimator call would raise (none), independent of the batch contents
and num_samples. -/
theorem vae_loss_zero_weights (beta alpha gamma : ℝ) (batch_size : ℕ)
    (klv mklv mmdv : Option ℝ) :
    (beta = 0 → (vae_loss_reg beta alpha gamma batch_size klv mklv mmdv).1 = some 0) ∧
    (alpha = 0 → (vae_loss_reg beta alpha gamma batch_size klv mklv mmdv).2.1 = some 0) ∧
    (gamma = 0 → (vae_loss_reg beta alpha gamma batch_size klv mklv mmdv).2.2 = some 0) := by
  refine ⟨fun h => ?_, fun h => ?_, fun h => ?_⟩ <;> simp [vae_loss_reg, h]

/-- Witness for C10: all three weights zero and all three estimators raising
(none): the three returned terms are still exactly 0. -/
theorem vae_loss_zero_weights_witness :
    (vae_loss_reg 0 0 0 3 none none none).1 = some 0 ∧
    (vae_loss_reg 0 0 0 3 none none none).2.1 = some 0 ∧
    (vae_loss_reg 0 0 0 3 none none none).2.2 = some 0 :=
  ⟨(vae_loss_zero_weights 0 0 0 3 none none none).1 rfl,
   (vae_loss_zero_weights 0 0 0 3 none none none).2.1 rfl,
   (vae_loss_zero_weights 0 0 0 3 none none none).2.2 rfl⟩
